import Mathlib

/-!
# Pebble button input path (`hw/arm/pebble.c`)

A shallow embedding of the button emulation of the Pebble machine model:
the three button map tables, the keycode translation and the press tracker
made of `pebble_key_handler` and `prv_send_key_up`, with the virtual-clock
timer they use.

C `int` values are Lean `Int`; `&` and `^` on them are the two's-complement
operations `Int.land` and `Int.xor`.  Every call the C code makes to a
collaborator (`qemu_set_irq`, `timer_new_ms`, `timer_mod`) is recorded, in
program order, in a list of `Effect`s returned next to the new state.
-/

namespace Pebble

/-! ## Data model -/

/-- The C enumerator `PBL_BUTTON_ID_NONE` (= -1). -/
def PBL_BUTTON_ID_NONE : Int := -1
/-- The C enumerator `PBL_BUTTON_ID_BACK` (= 0). -/
def PBL_BUTTON_ID_BACK : Int := 0
/-- The C enumerator `PBL_BUTTON_ID_UP` (= 1). -/
def PBL_BUTTON_ID_UP : Int := 1
/-- The C enumerator `PBL_BUTTON_ID_SELECT` (= 2). -/
def PBL_BUTTON_ID_SELECT : Int := 2
/-- The C enumerator `PBL_BUTTON_ID_DOWN` (= 3). -/
def PBL_BUTTON_ID_DOWN : Int := 3

/-- One entry of a button map: `typedef struct { int gpio; int pin; } PblButtonMap`. -/
structure PblButtonMap where
  gpio : Int
  pin : Int
deriving DecidableEq

/-- The GPIO bank indices `STM32_GPIOA_INDEX`, `STM32_GPIOC_INDEX` and
`STM32_GPIOG_INDEX`.  They are declared in a header that is not part of the
sources at hand, so the tables take them as a parameter. -/
structure GpioIndex where
  STM32_GPIOA_INDEX : Int
  STM32_GPIOC_INDEX : Int
  STM32_GPIOG_INDEX : Int
deriving DecidableEq

/-- Table `s_button_map_bb2_ev1_ev2`: back, up, select, down. -/
def s_button_map_bb2_ev1_ev2 (g : GpioIndex) : List PblButtonMap :=
  [ ⟨g.STM32_GPIOC_INDEX, 3⟩,
    ⟨g.STM32_GPIOA_INDEX, 2⟩,
    ⟨g.STM32_GPIOC_INDEX, 6⟩,
    ⟨g.STM32_GPIOA_INDEX, 1⟩ ]

/-- Table `s_button_map_bigboard`. -/
def s_button_map_bigboard (g : GpioIndex) : List PblButtonMap :=
  [ ⟨g.STM32_GPIOA_INDEX, 2⟩,
    ⟨g.STM32_GPIOA_INDEX, 1⟩,
    ⟨g.STM32_GPIOA_INDEX, 3⟩,
    ⟨g.STM32_GPIOC_INDEX, 9⟩ ]

/-- Table `s_button_map_snowy_bb`. -/
def s_button_map_snowy_bb (g : GpioIndex) : List PblButtonMap :=
  [ ⟨g.STM32_GPIOG_INDEX, 4⟩,
    ⟨g.STM32_GPIOG_INDEX, 3⟩,
    ⟨g.STM32_GPIOG_INDEX, 1⟩,
    ⟨g.STM32_GPIOG_INDEX, 2⟩ ]

/-- The three registered machines: `pebble-bb2`, `pebble-bb`, `pebble-snowy-bb`. -/
inductive Machine where
  | pebble_bb2
  | pebble_bb
  | pebble_snowy_bb
deriving DecidableEq

/-- The two board assembly routines, `pebble_32f2_init` and `pebble_32f4_init`. -/
inductive BoardInit where
  | pebble_32f2_init
  | pebble_32f4_init
deriving DecidableEq

/-- The `.init` entry of each machine (`pebble_bb2_init`, `pebble_bb_init`,
`pebble_snowy_init`): the assembly routine it calls and the table it passes. -/
def machine_init (g : GpioIndex) : Machine → BoardInit × List PblButtonMap
  | .pebble_bb2 => (.pebble_32f2_init, s_button_map_bb2_ev1_ev2 g)
  | .pebble_bb => (.pebble_32f2_init, s_button_map_bigboard g)
  | .pebble_snowy_bb => (.pebble_32f4_init, s_button_map_snowy_bb g)

/-- The table a machine hands to its assembly routine. -/
def button_map (g : GpioIndex) (m : Machine) : List PblButtonMap :=
  (machine_init g m).2

/-- The entry `map[i]` read by the button loop of the assembly routine: the
GPIO bank and pin of button `i`. -/
def line_for (g : GpioIndex) (m : Machine) (i : Nat) : Option PblButtonMap :=
  (button_map g m)[i]?

/-- A `QEMUTimer` as the tracker sees it: `expire_time` is `some d` while the
timer is pending with deadline `d` (virtual milliseconds) and `none` while it
is not pending. -/
structure QEMUTimer where
  expire_time : Option Int
deriving DecidableEq

/-- The file-scope and function-static variables of the tracker:
`s_waiting_key_up_id`, `s_button_timer` (`none` is the null pointer) and the
`static int prev_keycode` of `pebble_key_handler`. -/
structure TrackerState where
  s_waiting_key_up_id : Int
  s_button_timer : Option QEMUTimer
  prev_keycode : Int
deriving DecidableEq

/-- The state at program start: C zero-initialises `s_button_timer` and
`prev_keycode`; `s_waiting_key_up_id` has the initialiser `PBL_BUTTON_ID_NONE`. -/
def initial_state : TrackerState :=
  { s_waiting_key_up_id := PBL_BUTTON_ID_NONE, s_button_timer := none, prev_keycode := 0 }

/-- A call made to a collaborator. `set_irq i level` is
`qemu_set_irq(bs[i].irq, level)`; `timer_new` is
`timer_new_ms(QEMU_CLOCK_VIRTUAL, prv_send_key_up, bs)`; `timer_mod d` is
`timer_mod(s_button_timer, d)`. -/
inductive Effect where
  | set_irq (index : Int) (level : Bool)
  | timer_new
  | timer_mod (expire_time : Int)
deriving DecidableEq

/-! ## The two entry points -/

/-- The function `prv_send_key_up`. -/
def prv_send_key_up (s : TrackerState) : TrackerState × List Effect :=
  if s.s_waiting_key_up_id = PBL_BUTTON_ID_NONE then
    (s, [])
  else
    ({ s with s_waiting_key_up_id := PBL_BUTTON_ID_NONE },
     [Effect.set_irq s.s_waiting_key_up_id true])

/-- Lines 111-149 of `pebble_key_handler`: the locals `button_id` and `pressed`
computed from `keycode` and the static `prev_keycode`. -/
def translate (keycode prev_keycode : Int) : Int × Bool :=
  let pressed : Bool := decide (Int.land keycode 0x80 = 0)
  let sel := Int.land keycode 0x7F
  let button_id : Int :=
    if sel = 16 then PBL_BUTTON_ID_BACK
    else if sel = 17 then PBL_BUTTON_ID_UP
    else if sel = 31 then PBL_BUTTON_ID_SELECT
    else if sel = 45 then PBL_BUTTON_ID_DOWN
    else if sel = 72 then
      (if prev_keycode = 224 then PBL_BUTTON_ID_UP else PBL_BUTTON_ID_NONE)
    else if sel = 80 then
      (if prev_keycode = 224 then PBL_BUTTON_ID_DOWN else PBL_BUTTON_ID_NONE)
    else if sel = 75 then
      (if prev_keycode = 224 then PBL_BUTTON_ID_BACK else PBL_BUTTON_ID_NONE)
    else if sel = 77 then
      (if prev_keycode = 224 then PBL_BUTTON_ID_SELECT else PBL_BUTTON_ID_NONE)
    else PBL_BUTTON_ID_NONE
  (button_id, pressed)

/-- Modelled from the spec: `timer_new_ms` and `timer_mod` are collaborator
functions outside the sources at hand. A new timer is not pending; `timer_mod`
makes the timer pending with the given deadline, replacing any earlier
deadline (the release task is a single reschedulable unit of deferred work). -/
def timer_mod (_t : QEMUTimer) (expire_time : Int) : QEMUTimer :=
  { expire_time := some expire_time }

/-- Modelled from the spec: the timer returned by `timer_new_ms`, not pending. -/
def timer_new_ms : QEMUTimer := { expire_time := none }

/-- The function `pebble_key_handler`; `now` is the value returned by
`qemu_clock_get_ms(QEMU_CLOCK_VIRTUAL)` during the call. -/
def pebble_key_handler (s : TrackerState) (now keycode : Int) :
    TrackerState × List Effect :=
  let button_id := (translate keycode s.prev_keycode).1
  let pressed := (translate keycode s.prev_keycode).2
  let s0 : TrackerState := { s with prev_keycode := keycode }
  if button_id = PBL_BUTTON_ID_NONE ∨ pressed = false then
    (s0, [])
  else
    let r1 :=
      if s0.s_waiting_key_up_id ≠ PBL_BUTTON_ID_NONE ∧ button_id ≠ s0.s_waiting_key_up_id then
        prv_send_key_up s0
      else (s0, [])
    let r2 :=
      if r1.1.s_waiting_key_up_id ≠ button_id then
        ({ r1.1 with s_waiting_key_up_id := button_id }, [Effect.set_irq button_id false])
      else (r1.1, [])
    let r3 :=
      match r2.1.s_button_timer with
      | none => (timer_new_ms, [Effect.timer_new])
      | some t => (t, [])
    ({ r2.1 with s_button_timer := some (timer_mod r3.1 (now + 250)) },
     r1.2 ++ r2.2 ++ r3.2 ++ [Effect.timer_mod (now + 250)])

/-! ## Observations on effect lists -/

/-- The line signals among the effects, in program order: the `(index, level)`
of each `qemu_set_irq` call. Level `false` is the pressed (asserted, low)
level, level `true` the released (deasserted, high) one. -/
def irq_signals : List Effect → List (Int × Bool)
  | [] => []
  | Effect.set_irq i l :: es => (i, l) :: irq_signals es
  | Effect.timer_new :: es => irq_signals es
  | Effect.timer_mod _ :: es => irq_signals es

/-- The number of `timer_new_ms` calls among the effects. -/
def timers_created : List Effect → Nat
  | [] => 0
  | Effect.timer_new :: es => timers_created es + 1
  | Effect.set_irq _ _ :: es => timers_created es
  | Effect.timer_mod _ :: es => timers_created es

/-- The levels driven on line `b`, oldest first. -/
def line_history (es : List Effect) (b : Int) : List Bool :=
  (irq_signals es).filterMap (fun x => if x.1 = b then some x.2 else none)

/-- The level of line `b` after the effects, for a line that starts
deasserted (high, `true`). -/
def line_level (es : List Effect) (b : Int) : Bool :=
  ((line_history es b).getLast?).getD true

/-- The levels in the list alternate, the first one differing from `cur`. -/
def alternating : Bool → List Bool → Prop
  | _, [] => True
  | cur, x :: xs => x = !cur ∧ alternating x xs

/-- A real button identifier: one of the four indices of the button array. -/
def is_button (b : Int) : Prop := 0 ≤ b ∧ b ≤ 3

/-- The line signals keep at most one line asserted at every moment. `holder`
is the line asserted so far (`PBL_BUTTON_ID_NONE` when none is): a line of the
button array is driven low only while no line is asserted, and the line driven
high is the asserted one. -/
def exclusive : Int → List (Int × Bool) → Prop
  | _, [] => True
  | holder, (i, false) :: rest =>
    holder = PBL_BUTTON_ID_NONE ∧ is_button i ∧ exclusive i rest
  | holder, (i, true) :: rest =>
    holder = i ∧ holder ≠ PBL_BUTTON_ID_NONE ∧ exclusive PBL_BUTTON_ID_NONE rest

/-- The release timer is pending. -/
def timer_pending (s : TrackerState) : Prop :=
  ∃ d, s.s_button_timer = some { expire_time := some d }

/-! ## The translation table as the specification words it -/

/-- The four letter codes and their buttons. -/
def letter_codes : List (Int × Int) :=
  [(16, PBL_BUTTON_ID_BACK), (17, PBL_BUTTON_ID_UP),
   (31, PBL_BUTTON_ID_SELECT), (45, PBL_BUTTON_ID_DOWN)]

/-- The four arrow codes and their buttons. -/
def arrow_codes : List (Int × Int) :=
  [(72, PBL_BUTTON_ID_UP), (80, PBL_BUTTON_ID_DOWN),
   (75, PBL_BUTTON_ID_BACK), (77, PBL_BUTTON_ID_SELECT)]

/-- The specification of the translation, written from its description: the
direction is bit 7, the low seven bits (the residue modulo 128) are looked up
among the letter codes, then among the arrow codes, which count only after the
prefix 224. -/
def translate_table (rawCode prevRawCode : Int) : Int × Bool :=
  let pressed : Bool := decide (Int.land rawCode 0x80 = 0)
  let button : Int :=
    match letter_codes.lookup (rawCode % 128) with
    | some b => b
    | none =>
      match arrow_codes.lookup (rawCode % 128) with
      | some b => if prevRawCode = 224 then b else PBL_BUTTON_ID_NONE
      | none => PBL_BUTTON_ID_NONE
  (button, pressed)

/-- The direct letter code of the button an arrow code is assigned to:
72 (up arrow) as 17, 80 (down arrow) as 45, 75 (left arrow) as 16 and
77 (right arrow) as 31. -/
def arrow_letter (sel : Int) : Int :=
  if sel = 72 then 17 else if sel = 80 then 45 else if sel = 75 then 16 else 31

/-! ## Runs of the tracker -/

/-- What can happen to the tracker: a key event delivered at virtual time
`now`, or the release timer firing. -/
inductive Event where
  | key (now keycode : Int)
  | release_timeout
deriving DecidableEq

/-- Modelled from the spec: the firing of the release timer by the timer
scheduler, a collaborator outside the sources at hand. The timer is one-shot:
the scheduler takes it off the pending list and then runs its callback
`prv_send_key_up`. The callback is run whether or not the timer was pending,
so a stale or duplicate firing is covered too. -/
def timer_fire (s : TrackerState) : TrackerState × List Effect :=
  prv_send_key_up
    { s with s_button_timer := s.s_button_timer.map (fun _ => { expire_time := none }) }

/-- One event applied to the tracker. -/
def step (s : TrackerState) : Event → TrackerState × List Effect
  | Event.key now keycode => pebble_key_handler s now keycode
  | Event.release_timeout => timer_fire s

/-- A sequence of events applied in order; the effects are concatenated. -/
def run (s : TrackerState) (evs : List Event) : TrackerState × List Effect :=
  evs.foldl (fun acc e => ((step acc.1 e).1, acc.2 ++ (step acc.1 e).2)) (s, [])

/-- The virtual time of the most recent accepted press in a run that starts
with `prev_keycode = prev`: the last key event whose code maps to a button
with the press direction, `none` when there is no such event. -/
def last_press_time (prev : Int) (acc : Option Int) : List Event → Option Int
  | [] => acc
  | Event.key now keycode :: evs =>
    if (translate keycode prev).1 ≠ PBL_BUTTON_ID_NONE ∧ (translate keycode prev).2 = true then
      last_press_time keycode (some now) evs
    else last_press_time keycode acc evs
  | Event.release_timeout :: evs => last_press_time prev acc evs

/-! ## Virtual time -/

/-- Modelled from the spec: the virtual clock reaching time `t`, as run by the
timer scheduler outside the sources at hand. A pending release timer whose
deadline `d` is not after `t` fires at `d`; each effect is stamped with the
time it happens at. The callback never re-arms the timer, so one firing is
all that can be due. -/
def advance (s : TrackerState) (t : Int) : TrackerState × List (Int × Effect) :=
  match s.s_button_timer with
  | some { expire_time := some d } =>
    if d ≤ t then ((timer_fire s).1, (timer_fire s).2.map (fun e => (d, e))) else (s, [])
  | _ => (s, [])

/-- A key event arriving at virtual time `t`: the clock first reaches `t`,
then `pebble_key_handler` runs with `now = t`. -/
def deliver (s : TrackerState) (t keycode : Int) : TrackerState × List (Int × Effect) :=
  ((pebble_key_handler (advance s t).1 t keycode).1,
   (advance s t).2 ++ (pebble_key_handler (advance s t).1 t keycode).2.map (fun e => (t, e)))

/-- A list of `(time, keycode)` key events delivered in order. -/
def play (s : TrackerState) (ks : List (Int × Int)) : TrackerState × List (Int × Effect) :=
  ks.foldl (fun acc k => ((deliver acc.1 k.1 k.2).1, acc.2 ++ (deliver acc.1 k.1 k.2).2)) (s, [])

/-- The key events `ks` are delivered and the clock is then left to reach `T`. -/
def play_until (s : TrackerState) (ks : List (Int × Int)) (T : Int) :
    TrackerState × List (Int × Effect) :=
  ((advance (play s ks).1 T).1, (play s ks).2 ++ (advance (play s ks).1 T).2)

/-- The time-stamped line signals among time-stamped effects. -/
def timed_signals : List (Int × Effect) → List (Int × Int × Bool)
  | [] => []
  | (t, Effect.set_irq i l) :: es => (t, i, l) :: timed_signals es
  | (_, Effect.timer_new) :: es => timed_signals es
  | (_, Effect.timer_mod _) :: es => timed_signals es

/-- Every code of `ks` maps to button `b` with the press direction, given the
code seen before it (`prev` for the first one). -/
def press_codes_for (b : Int) : Int → List (Int × Int) → Prop
  | _, [] => True
  | prev, k :: ks => translate k.2 prev = (b, true) ∧ press_codes_for b k.2 ks

/-- Consecutive events are less than 250 ms apart, in increasing time, the
first one after `t0`. -/
def close_presses : Int → List (Int × Int) → Prop
  | _, [] => True
  | t0, k :: ks => t0 < k.1 ∧ k.1 < t0 + 250 ∧ close_presses k.1 ks

/-- The time of the last event of `ks`, or `t0` when there is none. -/
def last_time : Int → List (Int × Int) → Int
  | t0, [] => t0
  | _, k :: ks => last_time k.1 ks

/-! ## Two's complement facts about `keycode & 0x7F`, `keycode & 0x80`, `keycode ^ 0x80` -/

theorem testBit_128 (i : Nat) : Nat.testBit 128 i = decide (7 = i) :=
  Nat.testBit_two_pow (n := 7) (m := i)

theorem nat_testBit7 (n : Nat) : n.testBit 7 = decide (128 ≤ n % 256) := by
  rw [Nat.testBit_to_div_mod]
  have : (n / 2 ^ 7 % 2 = 1) ↔ (128 ≤ n % 256) := by
    norm_num
    omega
  simp only [this]

theorem nat_and_127 (n : Nat) : n &&& 127 = n % 128 :=
  Nat.and_pow_two_sub_one_eq_mod n 7

theorem nat_and_128 (n : Nat) : (n &&& 128 = 0) ↔ n % 256 < 128 := by
  have h : n &&& 128 = if n.testBit 7 then 128 else 0 := by
    apply Nat.eq_of_testBit_eq
    intro i
    rw [Nat.testBit_and, testBit_128]
    by_cases hi : 7 = i
    · subst hi
      cases h7 : n.testBit 7 <;> simp [testBit_128]
    · cases h7 : n.testBit 7 <;> simp [hi, testBit_128]
  rw [h, nat_testBit7]
  by_cases h2 : 128 ≤ n % 256
  · simp [h2]
  · simp [h2]; omega

theorem nat_ldiff_127 (m : Nat) : Nat.ldiff 127 m = 127 - m % 128 := by
  have h1 : Nat.ldiff 127 m = Nat.ldiff 127 (m % 128) := by
    apply Nat.eq_of_testBit_eq
    intro i
    rw [Nat.testBit_ldiff, Nat.testBit_ldiff, show (128 : Nat) = 2 ^ 7 from rfl,
      Nat.testBit_mod_two_pow, show (127 : Nat) = 2 ^ 7 - 1 from rfl, Nat.testBit_two_pow_sub_one]
    by_cases hi : i < 7 <;> simp [hi]
  rw [h1]
  apply Nat.eq_of_testBit_eq
  intro i
  have hlt : m % 128 < 2 ^ 7 := Nat.mod_lt _ (by decide)
  have h3 := Nat.testBit_two_pow_sub_succ hlt i
  rw [Nat.testBit_ldiff, show (127 : Nat) = 2 ^ 7 - 1 from rfl, Nat.testBit_two_pow_sub_one]
  rw [show 2 ^ 7 - 1 - m % 128 = 2 ^ 7 - (m % 128 + 1) by omega, h3]

theorem nat_ldiff_128 (m : Nat) : (Nat.ldiff 128 m = 0) ↔ 128 ≤ m % 256 := by
  have h : Nat.ldiff 128 m = if m.testBit 7 then 0 else 128 := by
    apply Nat.eq_of_testBit_eq
    intro i
    rw [Nat.testBit_ldiff, testBit_128]
    by_cases hi : 7 = i
    · subst hi
      cases h7 : m.testBit 7 <;> simp [testBit_128]
    · cases h7 : m.testBit 7 <;> simp [hi, testBit_128]
  rw [h, nat_testBit7]
  by_cases h2 : 128 ≤ m % 256 <;> simp [h2]

theorem nat_xor_128_low (n : Nat) : (n ^^^ 128) % 128 = n % 128 := by
  apply Nat.eq_of_testBit_eq
  intro i
  rw [show (128 : Nat) = 2 ^ 7 from rfl, Nat.testBit_mod_two_pow, Nat.testBit_mod_two_pow,
    Nat.testBit_xor, Nat.testBit_two_pow]
  by_cases hi : i < 7
  · have : ¬ (7 = i) := by omega
    simp [hi, this]
  · simp [hi]

theorem nat_xor_128_bit7 (n : Nat) : (128 ≤ (n ^^^ 128) % 256) ↔ n % 256 < 128 := by
  have h := nat_testBit7 (n ^^^ 128)
  rw [Nat.testBit_xor, show (128 : Nat) = 2 ^ 7 from rfl, Nat.testBit_two_pow_self,
    nat_testBit7] at h
  by_cases h2 : 128 ≤ n % 256 <;> simp [h2] at h <;> omega

/-- Two's complement: `k & 0x7F` is the residue of `k` modulo 128. -/
theorem land_0x7F (k : Int) : Int.land k 0x7F = k % 128 := by
  cases k with
  | ofNat n =>
    show ((n &&& 127 : Nat) : Int) = (n : Int) % 128
    rw [nat_and_127]; omega
  | negSucc m =>
    show ((Nat.ldiff 127 m : Nat) : Int) = Int.negSucc m % 128
    rw [nat_ldiff_127, Int.negSucc_eq]; omega

/-- Two's complement: `k & 0x80` is zero exactly when bit 7 of `k` is clear. -/
theorem land_0x80_eq_zero (k : Int) : Int.land k 0x80 = 0 ↔ k % 256 < 128 := by
  cases k with
  | ofNat n =>
    show ((n &&& 128 : Nat) : Int) = 0 ↔ (n : Int) % 256 < 128
    rw [Int.natCast_eq_zero, nat_and_128]; omega
  | negSucc m =>
    show ((Nat.ldiff 128 m : Nat) : Int) = 0 ↔ Int.negSucc m % 256 < 128
    rw [Int.natCast_eq_zero, nat_ldiff_128, Int.negSucc_eq]; omega

/-- Flipping bit 7 (`k ^ 0x80`) keeps the low seven bits. -/
theorem xor_0x80_low (k : Int) : Int.xor k 0x80 % 128 = k % 128 := by
  cases k with
  | ofNat n =>
    show ((n ^^^ 128 : Nat) : Int) % 128 = (n : Int) % 128
    have := nat_xor_128_low n; omega
  | negSucc m =>
    show Int.negSucc (m ^^^ 128) % 128 = Int.negSucc m % 128
    have := nat_xor_128_low m
    rw [Int.negSucc_eq, Int.negSucc_eq]; omega

/-- Flipping bit 7 (`k ^ 0x80`) flips bit 7. -/
theorem xor_0x80_bit7 (k : Int) : Int.xor k 0x80 % 256 < 128 ↔ ¬ (k % 256 < 128) := by
  cases k with
  | ofNat n =>
    show ((n ^^^ 128 : Nat) : Int) % 256 < 128 ↔ ¬ ((n : Int) % 256 < 128)
    have := nat_xor_128_bit7 n; omega
  | negSucc m =>
    show Int.negSucc (m ^^^ 128) % 256 < 128 ↔ ¬ (Int.negSucc m % 256 < 128)
    have := nat_xor_128_bit7 m
    rw [Int.negSucc_eq, Int.negSucc_eq]; omega


/-! ## Keycode translation -/

theorem translate_fst (k p : Int) :
    (translate k p).1 =
      if k % 128 = 16 then 0 else if k % 128 = 17 then 1 else if k % 128 = 31 then 2
      else if k % 128 = 45 then 3
      else if k % 128 = 72 then (if p = 224 then 1 else -1)
      else if k % 128 = 80 then (if p = 224 then 3 else -1)
      else if k % 128 = 75 then (if p = 224 then 0 else -1)
      else if k % 128 = 77 then (if p = 224 then 2 else -1)
      else -1 := by
  simp only [translate, land_0x7F, PBL_BUTTON_ID_BACK, PBL_BUTTON_ID_UP, PBL_BUTTON_ID_SELECT,
    PBL_BUTTON_ID_DOWN, PBL_BUTTON_ID_NONE]

theorem translate_snd (k p : Int) : (translate k p).2 = decide (k % 256 < 128) := by
  simp only [translate, land_0x80_eq_zero]

theorem translate_button (k p : Int) :
    (translate k p).1 = PBL_BUTTON_ID_NONE ∨ is_button (translate k p).1 := by
  rw [translate_fst]
  unfold is_button PBL_BUTTON_ID_NONE
  split_ifs <;> omega

/-! ## Shared facts about `pebble_key_handler` -/

theorem handler_prev_keycode (s : TrackerState) (now k : Int) :
    (pebble_key_handler s now k).1.prev_keycode = k := by
  unfold pebble_key_handler prv_send_key_up
  simp only []
  split_ifs <;> rfl

theorem handler_ignored (s : TrackerState) (now k : Int)
    (h : (translate k s.prev_keycode).1 = PBL_BUTTON_ID_NONE ∨
      (translate k s.prev_keycode).2 = false) :
    pebble_key_handler s now k = ({ s with prev_keycode := k }, []) := by
  simp [pebble_key_handler, h]

theorem handler_congr (s1 s2 : TrackerState) (now k1 k2 : Int)
    (ht : translate k1 s1.prev_keycode = translate k2 s2.prev_keycode)
    (ho : s1.s_waiting_key_up_id = s2.s_waiting_key_up_id)
    (hm : s1.s_button_timer = s2.s_button_timer) :
    (pebble_key_handler s1 now k1).2 = (pebble_key_handler s2 now k2).2 ∧
    (pebble_key_handler s1 now k1).1.s_waiting_key_up_id
      = (pebble_key_handler s2 now k2).1.s_waiting_key_up_id ∧
    (pebble_key_handler s1 now k1).1.s_button_timer
      = (pebble_key_handler s2 now k2).1.s_button_timer := by
  unfold pebble_key_handler prv_send_key_up
  simp only [ht, ho, hm]
  split_ifs <;> simp

theorem press_idle_effects (s : TrackerState) (now keycode b : Int)
    (hidle : s.s_waiting_key_up_id = PBL_BUTTON_ID_NONE)
    (hb : is_button b)
    (hmap : translate keycode s.prev_keycode = (b, true)) :
    irq_signals (pebble_key_handler s now keycode).2 = [(b, false)] ∧
    (pebble_key_handler s now keycode).1.s_waiting_key_up_id = b ∧
    (pebble_key_handler s now keycode).1.s_button_timer
      = some { expire_time := some (now + 250) } ∧
    (pebble_key_handler s now keycode).2
      = Effect.set_irq b false ::
          ((if s.s_button_timer = none then [Effect.timer_new] else [])
            ++ [Effect.timer_mod (now + 250)]) := by
  have hne : b ≠ PBL_BUTTON_ID_NONE := by
    unfold is_button at hb; unfold PBL_BUTTON_ID_NONE; omega
  have hne2 : ¬ PBL_BUTTON_ID_NONE = b := fun h => hne h.symm
  cases ht : s.s_button_timer <;>
    simp [pebble_key_handler, hmap, hidle, hne, hne2, ht, irq_signals, timer_mod]

/-! ## Single calls of the two entry points -/

/-- C1. Press while Idle: with no outstanding button, a keycode that maps to a
real button `b` with the press direction makes `pebble_key_handler` emit exactly
one line signal, line `b` driven low, set the outstanding button to `b` and
leave the release timer pending for `now + 250`. The timer is created first
when it does not exist yet. -/
theorem press_while_idle (s : TrackerState) (now keycode b : Int)
    (hidle : s.s_waiting_key_up_id = PBL_BUTTON_ID_NONE)
    (hb : is_button b)
    (hmap : translate keycode s.prev_keycode = (b, true)) :
    irq_signals (pebble_key_handler s now keycode).2 = [(b, false)] ∧
    (pebble_key_handler s now keycode).1.s_waiting_key_up_id = b ∧
    (pebble_key_handler s now keycode).1.s_button_timer
      = some { expire_time := some (now + 250) } ∧
    (pebble_key_handler s now keycode).2
      = Effect.set_irq b false ::
          ((if s.s_button_timer = none then [Effect.timer_new] else [])
            ++ [Effect.timer_mod (now + 250)]) :=
  press_idle_effects s now keycode b hidle hb hmap

/-- A concrete instance of C1: `Q` (16) pressed at time 1000 in the initial state. -/
theorem press_while_idle_witness :
    irq_signals (pebble_key_handler initial_state 1000 16).2 = [(0, false)] ∧
    (pebble_key_handler initial_state 1000 16).1.s_waiting_key_up_id = 0 ∧
    (pebble_key_handler initial_state 1000 16).1.s_button_timer
      = some { expire_time := some (1000 + 250) } ∧
    (pebble_key_handler initial_state 1000 16).2
      = Effect.set_irq 0 false ::
          ((if initial_state.s_button_timer = none then [Effect.timer_new] else [])
            ++ [Effect.timer_mod (1000 + 250)]) :=
  press_while_idle initial_state 1000 16 0 rfl ⟨by decide, by decide⟩ (by decide)

/-- C2. Press of a different button while Holding: with real button `c`
outstanding, a press code for a different real button `b` makes
`pebble_key_handler` emit exactly two line signals, line `c` driven high and
then line `b` driven low; afterwards `b` is outstanding and the one release
timer is pending for `now + 250`, whatever deadline it had before. -/
theorem press_other_while_holding (s : TrackerState) (now keycode c b : Int)
    (hc : is_button c) (hb : is_button b) (hbc : b ≠ c)
    (hhold : s.s_waiting_key_up_id = c)
    (hmap : translate keycode s.prev_keycode = (b, true)) :
    irq_signals (pebble_key_handler s now keycode).2 = [(c, true), (b, false)] ∧
    (pebble_key_handler s now keycode).1.s_waiting_key_up_id = b ∧
    (pebble_key_handler s now keycode).1.s_button_timer
      = some { expire_time := some (now + 250) } ∧
    (pebble_key_handler s now keycode).2
      = Effect.set_irq c true :: Effect.set_irq b false ::
          ((if s.s_button_timer = none then [Effect.timer_new] else [])
            ++ [Effect.timer_mod (now + 250)]) := by
  have hb1 : b ≠ PBL_BUTTON_ID_NONE := by
    unfold is_button at hb; unfold PBL_BUTTON_ID_NONE; omega
  have hc1 : c ≠ PBL_BUTTON_ID_NONE := by
    unfold is_button at hc; unfold PBL_BUTTON_ID_NONE; omega
  have hb2 : ¬ PBL_BUTTON_ID_NONE = b := fun h => hb1 h.symm
  cases ht : s.s_button_timer <;>
    simp [pebble_key_handler, prv_send_key_up, hmap, hhold, hb1, hc1, hb2, hbc, ht,
      irq_signals, timer_mod]

/-- A concrete instance of C2: UP (`W`, 17) is outstanding with its release due
at 1250 and SELECT (`S`, 31) is pressed at time 1100. -/
theorem press_other_while_holding_witness :
    irq_signals (pebble_key_handler ⟨1, some ⟨some 1250⟩, 17⟩ 1100 31).2
      = [(1, true), (2, false)] ∧
    (pebble_key_handler ⟨1, some ⟨some 1250⟩, 17⟩ 1100 31).1.s_waiting_key_up_id = 2 ∧
    (pebble_key_handler ⟨1, some ⟨some 1250⟩, 17⟩ 1100 31).1.s_button_timer
      = some { expire_time := some (1100 + 250) } ∧
    (pebble_key_handler ⟨1, some ⟨some 1250⟩, 17⟩ 1100 31).2
      = Effect.set_irq 1 true :: Effect.set_irq 2 false ::
          ((if (TrackerState.mk 1 (some ⟨some 1250⟩) 17).s_button_timer = none
              then [Effect.timer_new] else [])
            ++ [Effect.timer_mod (1100 + 250)]) :=
  press_other_while_holding ⟨1, some ⟨some 1250⟩, 17⟩ 1100 31 1 2
    ⟨by decide, by decide⟩ ⟨by decide, by decide⟩ (by decide) rfl (by decide)

/-- C4. Ignored events change nothing: in every state, for a keycode that has
bit 7 set or does not map to a button (given the remembered previous code),
`pebble_key_handler` makes no collaborator call at all (no line signal, no
timer call) and changes nothing in the state but `prev_keycode`, which becomes
the keycode. -/
theorem ignored_event (s : TrackerState) (now keycode : Int)
    (h : Int.land keycode 0x80 ≠ 0 ∨
      (translate keycode s.prev_keycode).1 = PBL_BUTTON_ID_NONE) :
    pebble_key_handler s now keycode = ({ s with prev_keycode := keycode }, []) := by
  apply handler_ignored
  rcases h with h | h
  · right; simp [translate, h]
  · left; exact h

/-- A concrete instance of C4: the release code of `Q` (16 + 128) while BACK is
outstanding. -/
theorem ignored_event_witness :
    pebble_key_handler ⟨0, some ⟨some 1250⟩, 16⟩ 1100 144
      = ({ (TrackerState.mk 0 (some ⟨some 1250⟩) 16) with prev_keycode := 144 }, []) :=
  ignored_event ⟨0, some ⟨some 1250⟩, 16⟩ 1100 144 (Or.inl (by decide))

/-- C5. Release timeout: with a real button `b` outstanding `prv_send_key_up`
emits exactly one line signal, line `b` driven high, and sets the outstanding
button to NONE, touching nothing else; with no button outstanding it is a
no-op; so a second call right after a first one emits nothing. -/
theorem release_timeout_effect (s : TrackerState) :
    (∀ b, is_button b → s.s_waiting_key_up_id = b →
      prv_send_key_up s
        = ({ s with s_waiting_key_up_id := PBL_BUTTON_ID_NONE }, [Effect.set_irq b true]) ∧
      irq_signals (prv_send_key_up s).2 = [(b, true)]) ∧
    (s.s_waiting_key_up_id = PBL_BUTTON_ID_NONE → prv_send_key_up s = (s, [])) ∧
    prv_send_key_up (prv_send_key_up s).1 = ((prv_send_key_up s).1, []) := by
  refine ⟨?_, ?_, ?_⟩
  · intro b hb hs
    have hb1 : b ≠ PBL_BUTTON_ID_NONE := by
      unfold is_button at hb; unfold PBL_BUTTON_ID_NONE; omega
    simp [prv_send_key_up, hs, hb1, irq_signals]
  · intro hs
    simp [prv_send_key_up, hs]
  · by_cases hs : s.s_waiting_key_up_id = PBL_BUTTON_ID_NONE <;> simp [prv_send_key_up, hs]

/-- A concrete instance of C5: SELECT outstanding, the timeout deasserts line 2. -/
theorem release_timeout_effect_witness :
    prv_send_key_up ⟨2, some ⟨none⟩, 31⟩
        = ({ (TrackerState.mk 2 (some ⟨none⟩) 31) with
              s_waiting_key_up_id := PBL_BUTTON_ID_NONE }, [Effect.set_irq 2 true]) ∧
      irq_signals (prv_send_key_up ⟨2, some ⟨none⟩, 31⟩).2 = [(2, true)] :=
  (release_timeout_effect ⟨2, some ⟨none⟩, 31⟩).1 2 ⟨by decide, by decide⟩ rfl

/-- C6. Arrow keys need the 224 prefix: for an arrow code `a` (low seven bits
72, 75, 77 or 80), after any keycode `k` other than 224 the call for `a` makes
no collaborator call and changes nothing in the state but `prev_keycode`;
after 224 the call for `a` yields the same effects (line signals and timer
calls), outstanding button and timer as a call, in the state before the 224,
for a direct letter code `l` of the assigned button with the same direction
bit. -/
theorem arrow_needs_escape (s : TrackerState) (t0 t1 a : Int)
    (ha : Int.land a 0x7F = 72 ∨ Int.land a 0x7F = 75 ∨ Int.land a 0x7F = 77 ∨
      Int.land a 0x7F = 80) :
    (∀ k, k ≠ 224 →
      pebble_key_handler (pebble_key_handler s t0 k).1 t1 a
        = ({ (pebble_key_handler s t0 k).1 with prev_keycode := a }, [])) ∧
    (∀ l, Int.land l 0x7F = arrow_letter (Int.land a 0x7F) →
      (Int.land l 0x80 = 0 ↔ Int.land a 0x80 = 0) →
      (pebble_key_handler (pebble_key_handler s t0 224).1 t1 a).2
        = (pebble_key_handler s t1 l).2 ∧
      irq_signals (pebble_key_handler (pebble_key_handler s t0 224).1 t1 a).2
        = irq_signals (pebble_key_handler s t1 l).2 ∧
      (pebble_key_handler (pebble_key_handler s t0 224).1 t1 a).1.s_waiting_key_up_id
        = (pebble_key_handler s t1 l).1.s_waiting_key_up_id ∧
      (pebble_key_handler (pebble_key_handler s t0 224).1 t1 a).1.s_button_timer
        = (pebble_key_handler s t1 l).1.s_button_timer) := by
  rw [land_0x7F] at ha
  refine ⟨?_, ?_⟩
  · intro k hk
    apply handler_ignored
    left
    rw [handler_prev_keycode, translate_fst]
    unfold PBL_BUTTON_ID_NONE
    split_ifs <;> omega
  · intro l hl hdir
    rw [land_0x7F, land_0x7F] at hl
    rw [land_0x80_eq_zero, land_0x80_eq_zero] at hdir
    have h224 : pebble_key_handler s t0 224 = ({ s with prev_keycode := 224 }, []) := by
      apply handler_ignored
      left
      rw [translate_fst]
      unfold PBL_BUTTON_ID_NONE
      norm_num
    have ht : translate a 224 = translate l s.prev_keycode := by
      apply Prod.ext
      · rw [translate_fst, translate_fst]
        unfold arrow_letter at hl
        rcases ha with ha | ha | ha | ha <;> simp [ha] at hl <;> simp [ha, hl]
      · rw [translate_snd, translate_snd]
        simp [hdir]
    rw [h224]
    have hc := handler_congr { s with prev_keycode := 224 } s t1 a l ht rfl rfl
    exact ⟨hc.1, by rw [hc.1], hc.2.1, hc.2.2⟩

/-- A concrete instance of C6 in the initial state: the up arrow (72) after the
code 30 is ignored. -/
theorem arrow_needs_escape_witness :
    pebble_key_handler (pebble_key_handler initial_state 1000 30).1 1010 72
      = ({ (pebble_key_handler initial_state 1000 30).1 with prev_keycode := 72 }, []) :=
  (arrow_needs_escape initial_state 1000 1010 72 (Or.inl (by decide))).1 30 (by decide)

/-- C7. Keycode translation equals its table for every raw code and previous
code: `pressed` is `(rawCode & 0x80) == 0`, the button is the table entry of
the low seven bits (letter codes alone, arrow codes only after 224, NONE
otherwise); flipping bit 7 of the raw code keeps the button and flips
`pressed`. -/
theorem translate_eq_table (rawCode prevRawCode : Int) :
    translate rawCode prevRawCode = translate_table rawCode prevRawCode ∧
    (translate rawCode prevRawCode).2 = decide (Int.land rawCode 0x80 = 0) ∧
    (translate (Int.xor rawCode 0x80) prevRawCode).1 = (translate rawCode prevRawCode).1 ∧
    (translate (Int.xor rawCode 0x80) prevRawCode).2 = !(translate rawCode prevRawCode).2 := by
  refine ⟨?_, rfl, ?_, ?_⟩
  · apply Prod.ext
    · rw [translate_fst]
      simp only [translate_table, letter_codes, arrow_codes, PBL_BUTTON_ID_BACK,
        PBL_BUTTON_ID_UP, PBL_BUTTON_ID_SELECT, PBL_BUTTON_ID_DOWN, PBL_BUTTON_ID_NONE]
      split_ifs <;> simp [List.lookup, beq_eq_decide, *]
    · rfl
  · rw [translate_fst, translate_fst, xor_0x80_low]
  · rw [translate_snd, translate_snd]
    have := xor_0x80_bit7 rawCode
    by_cases h : rawCode % 256 < 128 <;> simp_all

/-! ## Button map tables -/

/-- C8, as stated, fails: whatever the GPIO bank indices are, no two of the
three machines have tables that give the same bank and pin for each of the
four buttons. -/
theorem button_maps_not_shared :
    ¬ ∃ (g : GpioIndex) (m1 m2 : Machine), m1 ≠ m2 ∧
        ∀ i, i < 4 → line_for g m1 i = line_for g m2 i := by
  rintro ⟨g, m1, m2, hne, h⟩
  have h0 := h 0 (by decide)
  cases m1 <;> cases m2 <;>
    simp [line_for, button_map, machine_init, s_button_map_bb2_ev1_ev2,
      s_button_map_bigboard, s_button_map_snowy_bb] at h0 hne

/-- C8, amended: each machine has a 4-entry table; the three tables are
pairwise different at every one of the four buttons (the pin numbers already
differ); what `pebble-bb2` and `pebble-bb` share is the assembly routine
`pebble_32f2_init`, `pebble-snowy-bb` using `pebble_32f4_init`. -/
theorem button_maps_distinct (g : GpioIndex) (m1 m2 : Machine) (hne : m1 ≠ m2) :
    (button_map g m1).length = 4 ∧
    (∀ i, i < 4 → line_for g m1 i ≠ line_for g m2 i) ∧
    (machine_init g Machine.pebble_bb2).1 = BoardInit.pebble_32f2_init ∧
    (machine_init g Machine.pebble_bb).1 = BoardInit.pebble_32f2_init ∧
    (machine_init g Machine.pebble_snowy_bb).1 = BoardInit.pebble_32f4_init := by
  refine ⟨?_, ?_, rfl, rfl, rfl⟩
  · cases m1 <;> rfl
  · intro i hi
    interval_cases i <;> cases m1 <;> cases m2 <;>
      simp [line_for, button_map, machine_init, s_button_map_bb2_ev1_ev2,
        s_button_map_bigboard, s_button_map_snowy_bb] at hne ⊢

/-- A concrete instance of the amended C8, with the bank indices A = 0, C = 2,
G = 6: the BACK entries of `pebble-bb2` and `pebble-bb` differ. -/
theorem button_maps_distinct_witness :
    line_for ⟨0, 2, 6⟩ Machine.pebble_bb2 0 ≠ line_for ⟨0, 2, 6⟩ Machine.pebble_bb 0 :=
  (button_maps_distinct ⟨0, 2, 6⟩ Machine.pebble_bb2 Machine.pebble_bb (by decide)).2.1 0
    (by decide)

/-! ## Runs -/

theorem foldl_effects {σ ε α : Type} (f : σ → α → σ × List ε) (xs : List α) (s : σ)
    (acc : List ε) :
    xs.foldl (fun a x => ((f a.1 x).1, a.2 ++ (f a.1 x).2)) (s, acc)
      = ((xs.foldl (fun a x => ((f a.1 x).1, a.2 ++ (f a.1 x).2)) (s, [])).1,
         acc ++ (xs.foldl (fun a x => ((f a.1 x).1, a.2 ++ (f a.1 x).2)) (s, [])).2) := by
  induction xs generalizing s acc with
  | nil => simp
  | cons x xs ih =>
    simp only [List.foldl_cons, List.nil_append]
    rw [ih, ih (f s x).1 (f s x).2]
    simp

theorem run_nil (s : TrackerState) : run s [] = (s, []) := rfl

theorem run_cons (s : TrackerState) (e : Event) (evs : List Event) :
    run s (e :: evs)
      = ((run (step s e).1 evs).1, (step s e).2 ++ (run (step s e).1 evs).2) := by
  unfold run
  simp only [List.foldl_cons, List.nil_append]
  exact foldl_effects step evs (step s e).1 (step s e).2

theorem irq_signals_append (xs ys : List Effect) :
    irq_signals (xs ++ ys) = irq_signals xs ++ irq_signals ys := by
  induction xs with
  | nil => rfl
  | cons x xs ih => cases x <;> simp [irq_signals, ih]

theorem timers_created_append (xs ys : List Effect) :
    timers_created (xs ++ ys) = timers_created xs + timers_created ys := by
  induction xs with
  | nil => simp [timers_created]
  | cons x xs ih =>
    cases x
    · simpa [timers_created] using ih
    · show timers_created (xs ++ ys) + 1 = (timers_created xs + 1) + timers_created ys
      rw [ih]; omega
    · simpa [timers_created] using ih

theorem timer_fire_eq (s : TrackerState) :
    timer_fire s
      = if s.s_waiting_key_up_id = PBL_BUTTON_ID_NONE then
          ({ s with s_button_timer := s.s_button_timer.map (fun _ => { expire_time := none }) },
            [])
        else
          ({ s with s_button_timer := s.s_button_timer.map (fun _ => { expire_time := none }),
                    s_waiting_key_up_id := PBL_BUTTON_ID_NONE },
            [Effect.set_irq s.s_waiting_key_up_id true]) := by
  unfold timer_fire prv_send_key_up
  simp only []

/-- What an accepted press does, whatever the state. -/
theorem handler_press (s : TrackerState) (now k : Int)
    (h1 : (translate k s.prev_keycode).1 ≠ PBL_BUTTON_ID_NONE)
    (h2 : (translate k s.prev_keycode).2 = true) :
    (pebble_key_handler s now k).1
      = { s_waiting_key_up_id := (translate k s.prev_keycode).1,
          s_button_timer := some { expire_time := some (now + 250) },
          prev_keycode := k } ∧
    timers_created (pebble_key_handler s now k).2
      = (if s.s_button_timer = none then 1 else 0) ∧
    irq_signals (pebble_key_handler s now k).2
      = if s.s_waiting_key_up_id = (translate k s.prev_keycode).1 then []
        else if s.s_waiting_key_up_id = PBL_BUTTON_ID_NONE then
          [((translate k s.prev_keycode).1, false)]
        else [(s.s_waiting_key_up_id, true), ((translate k s.prev_keycode).1, false)] := by
  have h1b : ¬ PBL_BUTTON_ID_NONE = (translate k s.prev_keycode).1 := fun h => h1 h.symm
  unfold pebble_key_handler prv_send_key_up
  simp only [h1, h2, timer_mod]
  cases ht : s.s_button_timer <;>
    by_cases ho : s.s_waiting_key_up_id = PBL_BUTTON_ID_NONE <;>
    by_cases hb : s.s_waiting_key_up_id = (translate k s.prev_keycode).1 <;>
    simp [ho, hb, h1, h1b, Ne.symm, irq_signals, timers_created]

theorem step_key_ignore (s : TrackerState) (now k : Int)
    (hacc : ¬ ((translate k s.prev_keycode).1 ≠ PBL_BUTTON_ID_NONE ∧
        (translate k s.prev_keycode).2 = true)) :
    step s (Event.key now k) = ({ s with prev_keycode := k }, []) := by
  apply handler_ignored
  by_cases h1 : (translate k s.prev_keycode).1 = PBL_BUTTON_ID_NONE
  · exact Or.inl h1
  · right
    cases h2 : (translate k s.prev_keycode).2
    · rfl
    · exact absurd ⟨h1, h2⟩ hacc

theorem step_key_accept (s : TrackerState) (now k : Int)
    (hacc : (translate k s.prev_keycode).1 ≠ PBL_BUTTON_ID_NONE ∧
        (translate k s.prev_keycode).2 = true) :
    (step s (Event.key now k)).1
      = { s_waiting_key_up_id := (translate k s.prev_keycode).1,
          s_button_timer := some { expire_time := some (now + 250) },
          prev_keycode := k } ∧
    timers_created (step s (Event.key now k)).2
      = (if s.s_button_timer = none then 1 else 0) ∧
    irq_signals (step s (Event.key now k)).2
      = if s.s_waiting_key_up_id = (translate k s.prev_keycode).1 then []
        else if s.s_waiting_key_up_id = PBL_BUTTON_ID_NONE then
          [((translate k s.prev_keycode).1, false)]
        else [(s.s_waiting_key_up_id, true), ((translate k s.prev_keycode).1, false)] :=
  handler_press s now k hacc.1 hacc.2

theorem step_timeout (s : TrackerState) :
    (step s Event.release_timeout).1
      = { s_waiting_key_up_id := PBL_BUTTON_ID_NONE,
          s_button_timer := s.s_button_timer.map (fun _ => { expire_time := none }),
          prev_keycode := s.prev_keycode } ∧
    timers_created (step s Event.release_timeout).2 = 0 ∧
    irq_signals (step s Event.release_timeout).2
      = if s.s_waiting_key_up_id = PBL_BUTTON_ID_NONE then []
        else [(s.s_waiting_key_up_id, true)] := by
  simp only [step, timer_fire_eq]
  by_cases hn : s.s_waiting_key_up_id = PBL_BUTTON_ID_NONE
  · simp [hn, irq_signals, timers_created]
  · simp [hn, irq_signals, timers_created]

theorem last_press_time_accept (prev : Int) (acc : Option Int) (now k : Int)
    (evs : List Event)
    (hacc : (translate k prev).1 ≠ PBL_BUTTON_ID_NONE ∧ (translate k prev).2 = true) :
    last_press_time prev acc (Event.key now k :: evs) = last_press_time k (some now) evs := by
  rw [last_press_time, if_pos hacc]

theorem last_press_time_ignore (prev : Int) (acc : Option Int) (now k : Int)
    (evs : List Event)
    (hacc : ¬ ((translate k prev).1 ≠ PBL_BUTTON_ID_NONE ∧ (translate k prev).2 = true)) :
    last_press_time prev acc (Event.key now k :: evs) = last_press_time k acc evs := by
  rw [last_press_time, if_neg hacc]

/-- One event: how the outstanding button moves and which line signals go out. -/
theorem step_signals (s : TrackerState) (e : Event)
    (hv : s.s_waiting_key_up_id = PBL_BUTTON_ID_NONE ∨ is_button s.s_waiting_key_up_id) :
    ((step s e).1.s_waiting_key_up_id = PBL_BUTTON_ID_NONE ∨
      is_button (step s e).1.s_waiting_key_up_id) ∧
    (((step s e).1.s_waiting_key_up_id = s.s_waiting_key_up_id ∧
        irq_signals (step s e).2 = []) ∨
     (s.s_waiting_key_up_id = PBL_BUTTON_ID_NONE ∧
        (step s e).1.s_waiting_key_up_id ≠ PBL_BUTTON_ID_NONE ∧
        irq_signals (step s e).2 = [((step s e).1.s_waiting_key_up_id, false)]) ∨
     (s.s_waiting_key_up_id ≠ PBL_BUTTON_ID_NONE ∧
        (step s e).1.s_waiting_key_up_id ≠ PBL_BUTTON_ID_NONE ∧
        s.s_waiting_key_up_id ≠ (step s e).1.s_waiting_key_up_id ∧
        irq_signals (step s e).2
          = [(s.s_waiting_key_up_id, true), ((step s e).1.s_waiting_key_up_id, false)]) ∨
     (s.s_waiting_key_up_id ≠ PBL_BUTTON_ID_NONE ∧
        (step s e).1.s_waiting_key_up_id = PBL_BUTTON_ID_NONE ∧
        irq_signals (step s e).2 = [(s.s_waiting_key_up_id, true)])) := by
  cases e with
  | key now k =>
    by_cases hacc : (translate k s.prev_keycode).1 ≠ PBL_BUTTON_ID_NONE ∧
        (translate k s.prev_keycode).2 = true
    · obtain ⟨h1, _, h3⟩ := step_key_accept s now k hacc
      have hbut := (translate_button k s.prev_keycode).resolve_left hacc.1
      rw [h1, h3]
      refine ⟨Or.inr hbut, ?_⟩
      have hsym : ¬ PBL_BUTTON_ID_NONE = (translate k s.prev_keycode).1 :=
        fun h => hacc.1 h.symm
      by_cases ho : s.s_waiting_key_up_id = (translate k s.prev_keycode).1
      · left; simp [ho]
      · by_cases hn : s.s_waiting_key_up_id = PBL_BUTTON_ID_NONE
        · right; left; simp [hn, hacc.1, hsym]
        · right; right; left; simp [ho, hn, hacc.1]
    · rw [step_key_ignore s now k hacc]
      exact ⟨hv, Or.inl ⟨rfl, rfl⟩⟩
  | release_timeout =>
    obtain ⟨h1, _, h3⟩ := step_timeout s
    rw [h1, h3]
    by_cases hn : s.s_waiting_key_up_id = PBL_BUTTON_ID_NONE
    · simp [hn]
    · simp [hn]

/-! ## The tracker invariant -/

/-- One event keeps: the timer is pending exactly when a button is outstanding. -/
theorem step_inv (s : TrackerState) (e : Event)
    (hp : timer_pending s ↔ s.s_waiting_key_up_id ≠ PBL_BUTTON_ID_NONE) :
    (timer_pending (step s e).1 ↔ (step s e).1.s_waiting_key_up_id ≠ PBL_BUTTON_ID_NONE) := by
  cases e with
  | key now k =>
    by_cases hacc : (translate k s.prev_keycode).1 ≠ PBL_BUTTON_ID_NONE ∧
        (translate k s.prev_keycode).2 = true
    · rw [(step_key_accept s now k hacc).1]
      exact ⟨fun _ => hacc.1, fun _ => ⟨now + 250, rfl⟩⟩
    · rw [step_key_ignore s now k hacc]
      exact hp
  | release_timeout =>
    rw [(step_timeout s).1]
    constructor
    · rintro ⟨d, hd⟩
      cases ht : s.s_button_timer <;> simp [ht] at hd
    · intro h; exact absurd rfl h

theorem run_inv (evs : List Event) : ∀ (s : TrackerState) (acc : Option Int),
    (s.s_waiting_key_up_id = PBL_BUTTON_ID_NONE ∨ is_button s.s_waiting_key_up_id) →
    (timer_pending s ↔ s.s_waiting_key_up_id ≠ PBL_BUTTON_ID_NONE) →
    (s.s_waiting_key_up_id ≠ PBL_BUTTON_ID_NONE →
      ∃ t, acc = some t ∧ s.s_button_timer = some { expire_time := some (t + 250) }) →
    ((run s evs).1.s_waiting_key_up_id = PBL_BUTTON_ID_NONE ∨
      is_button (run s evs).1.s_waiting_key_up_id) ∧
    (timer_pending (run s evs).1 ↔
      (run s evs).1.s_waiting_key_up_id ≠ PBL_BUTTON_ID_NONE) ∧
    ((run s evs).1.s_waiting_key_up_id ≠ PBL_BUTTON_ID_NONE →
      ∃ t, last_press_time s.prev_keycode acc evs = some t ∧
        (run s evs).1.s_button_timer = some { expire_time := some (t + 250) }) ∧
    (timers_created (run s evs).2 + (if s.s_button_timer = none then 0 else 1)
      = if (run s evs).1.s_button_timer = none then 0 else 1) := by
  induction evs with
  | nil =>
    intro s acc hv hp hd
    exact ⟨hv, hp, hd, by simp [run_nil, timers_created]⟩
  | cons e evs ih =>
    intro s acc hv hp hd
    rw [run_cons]
    have hv1 := (step_signals s e hv).1
    have hp1 := step_inv s e hp
    cases e with
    | key now k =>
      by_cases hacc : (translate k s.prev_keycode).1 ≠ PBL_BUTTON_ID_NONE ∧
          (translate k s.prev_keycode).2 = true
      · obtain ⟨h1, h2, _⟩ := step_key_accept s now k hacc
        have hd1 : (step s (Event.key now k)).1.s_waiting_key_up_id ≠ PBL_BUTTON_ID_NONE →
            ∃ t, some now = some t ∧ (step s (Event.key now k)).1.s_button_timer
              = some { expire_time := some (t + 250) } := by
          intro _
          exact ⟨now, rfl, by rw [h1]⟩
        obtain ⟨a1, a2, a3, a4⟩ := ih (step s (Event.key now k)).1 (some now) hv1 hp1 hd1
        have hprev : (step s (Event.key now k)).1.prev_keycode = k := by rw [h1]
        have htm : (step s (Event.key now k)).1.s_button_timer ≠ none := by
          rw [h1]; simp
        rw [last_press_time_accept _ _ _ _ _ hacc]
        rw [hprev] at a3
        refine ⟨a1, a2, a3, ?_⟩
        rw [timers_created_append, ← a4, h2]
        simp only [htm, if_false]
        split_ifs <;> omega
      · have hst := step_key_ignore s now k hacc
        have hd1 : (step s (Event.key now k)).1.s_waiting_key_up_id ≠ PBL_BUTTON_ID_NONE →
            ∃ t, acc = some t ∧ (step s (Event.key now k)).1.s_button_timer
              = some { expire_time := some (t + 250) } := by
          rw [hst]; exact hd
        obtain ⟨a1, a2, a3, a4⟩ := ih (step s (Event.key now k)).1 acc hv1 hp1 hd1
        have hprev : (step s (Event.key now k)).1.prev_keycode = k := by rw [hst]
        rw [last_press_time_ignore _ _ _ _ _ hacc]
        rw [hprev] at a3
        refine ⟨a1, a2, a3, ?_⟩
        rw [timers_created_append, ← a4, hst]
        simp [timers_created]
    | release_timeout =>
      obtain ⟨h1, h2, _⟩ := step_timeout s
      have hd1 : (step s Event.release_timeout).1.s_waiting_key_up_id ≠ PBL_BUTTON_ID_NONE →
          ∃ t, acc = some t ∧ (step s Event.release_timeout).1.s_button_timer
            = some { expire_time := some (t + 250) } := by
        intro h; rw [h1] at h; exact absurd rfl h
      obtain ⟨a1, a2, a3, a4⟩ := ih (step s Event.release_timeout).1 acc hv1 hp1 hd1
      have hprev : (step s Event.release_timeout).1.prev_keycode = s.prev_keycode := by rw [h1]
      have htm : ((step s Event.release_timeout).1.s_button_timer = none)
          ↔ (s.s_button_timer = none) := by
        rw [h1]; cases s.s_button_timer <;> simp
      rw [hprev] at a3
      refine ⟨a1, a2, ?_, ?_⟩
      · simpa only [last_press_time] using a3
      · rw [timers_created_append, ← a4, h2]
        simp only [htm]
        omega

theorem run_handle (evs : List Event) : ∀ (s : TrackerState) (acc : Option Int),
    (s.s_button_timer = none ↔ acc = none) →
    ((run s evs).1.s_button_timer = none ↔
      last_press_time s.prev_keycode acc evs = none) := by
  induction evs with
  | nil =>
    intro s acc h
    simpa [run_nil, last_press_time] using h
  | cons e evs ih =>
    intro s acc h
    rw [run_cons]
    cases e with
    | key now k =>
      by_cases hacc : (translate k s.prev_keycode).1 ≠ PBL_BUTTON_ID_NONE ∧
          (translate k s.prev_keycode).2 = true
      · have h1 := (step_key_accept s now k hacc).1
        have hr := ih (step s (Event.key now k)).1 (some now) (by rw [h1]; simp)
        rw [last_press_time_accept _ _ _ _ _ hacc]
        rw [h1] at hr ⊢
        exact hr
      · have hst := step_key_ignore s now k hacc
        have hr := ih (step s (Event.key now k)).1 acc (by rw [hst]; exact h)
        rw [last_press_time_ignore _ _ _ _ _ hacc]
        rw [hst] at hr ⊢
        exact hr
    | release_timeout =>
      have h1 := (step_timeout s).1
      have hr := ih (step s Event.release_timeout).1 acc
        (by rw [h1]; cases ht : s.s_button_timer <;> simp [ht] at h ⊢ <;> exact h)
      rw [h1] at hr ⊢
      simpa only [last_press_time] using hr

/-- C9, as stated, fails: after BACK is pressed and its release timeout has
run, no button is outstanding and yet the timer handle `s_button_timer` is
still there (not pending): the reference is kept, not dropped. -/
theorem timer_reference_kept :
    (run initial_state [Event.key 1000 16, Event.release_timeout]).1.s_waiting_key_up_id
      = PBL_BUTTON_ID_NONE ∧
    (run initial_state [Event.key 1000 16, Event.release_timeout]).1.s_button_timer
      = some { expire_time := none } := by
  decide

/-- C9, amended: in every state reached from the initial state by key events
and release-timer firings, the outstanding button is NONE or one real button;
the release timer is pending exactly when a button is outstanding; while a
button is outstanding the deadline is the time of the most recent accepted
press plus 250; at most one timer is ever created, and its handle is kept once
created; a release timeout leaves no button outstanding and the timer not
pending, with the handle still in place. The handle is created by the first
accepted press: it exists exactly when the run holds an accepted press, an
accepted press calls `timer_new_ms` exactly when there is no handle yet and
leaves a handle, and neither an ignored key event nor a release timeout calls
`timer_new_ms`. -/
theorem tracker_invariant (evs : List Event) :
    ((run initial_state evs).1.s_waiting_key_up_id = PBL_BUTTON_ID_NONE ∨
      is_button (run initial_state evs).1.s_waiting_key_up_id) ∧
    (timer_pending (run initial_state evs).1 ↔
      (run initial_state evs).1.s_waiting_key_up_id ≠ PBL_BUTTON_ID_NONE) ∧
    ((run initial_state evs).1.s_waiting_key_up_id ≠ PBL_BUTTON_ID_NONE →
      ∃ t, last_press_time initial_state.prev_keycode none evs = some t ∧
        (run initial_state evs).1.s_button_timer = some { expire_time := some (t + 250) }) ∧
    timers_created (run initial_state evs).2
      = (if (run initial_state evs).1.s_button_timer = none then 0 else 1) ∧
    (step (run initial_state evs).1 Event.release_timeout).1.s_waiting_key_up_id
      = PBL_BUTTON_ID_NONE ∧
    ¬ timer_pending (step (run initial_state evs).1 Event.release_timeout).1 ∧
    ((step (run initial_state evs).1 Event.release_timeout).1.s_button_timer = none ↔
      (run initial_state evs).1.s_button_timer = none) ∧
    ((run initial_state evs).1.s_button_timer = none ↔
      last_press_time initial_state.prev_keycode none evs = none) ∧
    (∀ now k,
      ((translate k (run initial_state evs).1.prev_keycode).1 ≠ PBL_BUTTON_ID_NONE ∧
          (translate k (run initial_state evs).1.prev_keycode).2 = true →
        timers_created (step (run initial_state evs).1 (Event.key now k)).2
            = (if (run initial_state evs).1.s_button_timer = none then 1 else 0) ∧
          (step (run initial_state evs).1 (Event.key now k)).1.s_button_timer
            = some { expire_time := some (now + 250) }) ∧
      (¬ ((translate k (run initial_state evs).1.prev_keycode).1 ≠ PBL_BUTTON_ID_NONE ∧
          (translate k (run initial_state evs).1.prev_keycode).2 = true) →
        timers_created (step (run initial_state evs).1 (Event.key now k)).2 = 0 ∧
          (step (run initial_state evs).1 (Event.key now k)).1.s_button_timer
            = (run initial_state evs).1.s_button_timer)) ∧
    timers_created (step (run initial_state evs).1 Event.release_timeout).2 = 0 := by
  have hp0 : timer_pending initial_state ↔
      initial_state.s_waiting_key_up_id ≠ PBL_BUTTON_ID_NONE := by
    constructor
    · rintro ⟨d, hd⟩; simp [initial_state] at hd
    · intro h; exact absurd rfl h
  have hd0 : initial_state.s_waiting_key_up_id ≠ PBL_BUTTON_ID_NONE →
      ∃ t, (none : Option Int) = some t ∧
        initial_state.s_button_timer = some { expire_time := some (t + 250) } :=
    fun h => absurd rfl h
  obtain ⟨a1, a2, a3, a4⟩ := run_inv evs initial_state none (Or.inl rfl) hp0 hd0
  have h1 := (step_timeout (run initial_state evs).1).1
  refine ⟨a1, a2, a3, ?_, ?_, ?_, ?_, ?_, ?_, ?_⟩
  · simpa [initial_state] using a4
  · rw [h1]
  · rw [h1]
    rintro ⟨d, hd⟩
    cases ht : (run initial_state evs).1.s_button_timer <;> simp [ht] at hd
  · rw [h1]
    cases (run initial_state evs).1.s_button_timer <;> simp
  · exact run_handle evs initial_state none ⟨fun _ => rfl, fun _ => rfl⟩
  · intro now k
    refine ⟨?_, ?_⟩
    · intro hacc
      obtain ⟨c1, c2, _⟩ := step_key_accept (run initial_state evs).1 now k hacc
      exact ⟨c2, by rw [c1]⟩
    · intro hacc
      rw [step_key_ignore (run initial_state evs).1 now k hacc]
      exact ⟨rfl, rfl⟩
  · exact (step_timeout (run initial_state evs).1).2.1

/-- A concrete instance of the amended C9: in the initial state there is no
timer handle, and the accepted press of `Q` (16) at time 0 creates it with one
`timer_new_ms` call and leaves it pending for 250. -/
theorem tracker_invariant_witness :
    timers_created (step (run initial_state []).1 (Event.key 0 16)).2
        = (if (run initial_state []).1.s_button_timer = none then 1 else 0) ∧
      (step (run initial_state []).1 (Event.key 0 16)).1.s_button_timer
        = some { expire_time := some (0 + 250) } :=
  ((tracker_invariant []).2.2.2.2.2.2.2.2.1 0 16).1 ⟨by decide, by decide⟩

/-! ## Lines -/

theorem line_history_append (xs ys : List Effect) (b : Int) :
    line_history (xs ++ ys) b = line_history xs b ++ line_history ys b := by
  simp [line_history, irq_signals_append]

theorem getLast_cons_getD (x : Bool) (xs : List Bool) (cur : Bool) :
    ((x :: xs).getLast?).getD cur = (xs.getLast?).getD x := by
  cases xs with
  | nil => simp
  | cons y ys =>
    rw [List.getLast?_cons_cons, List.getLast?_eq_getLast _ (List.cons_ne_nil y ys)]
    rfl

theorem alternating_append (h1 h2 : List Bool) : ∀ cur : Bool,
    alternating cur (h1 ++ h2) ↔
      alternating cur h1 ∧ alternating ((h1.getLast?).getD cur) h2 := by
  induction h1 with
  | nil => intro cur; simp [alternating]
  | cons x xs ih =>
    intro cur
    rw [getLast_cons_getD]
    show (x = !cur ∧ alternating x (xs ++ h2)) ↔ _
    rw [ih x]
    simp only [alternating, and_assoc]

theorem getLast_append_getD (h1 h2 : List Bool) : ∀ cur : Bool,
    ((h1 ++ h2).getLast?).getD cur = (h2.getLast?).getD ((h1.getLast?).getD cur) := by
  induction h1 with
  | nil => intro cur; simp
  | cons x xs ih =>
    intro cur
    rw [List.cons_append, getLast_cons_getD, getLast_cons_getD, ih x]

/-- One event, seen on line `b`: the levels driven alternate from the level
that matches the outstanding button before, and end at the level that matches
the outstanding button after. -/
theorem step_lines (s : TrackerState) (e : Event) (b : Int) (hb : is_button b)
    (hv : s.s_waiting_key_up_id = PBL_BUTTON_ID_NONE ∨ is_button s.s_waiting_key_up_id) :
    alternating (decide (s.s_waiting_key_up_id ≠ b)) (line_history (step s e).2 b) ∧
    ((line_history (step s e).2 b).getLast?).getD (decide (s.s_waiting_key_up_id ≠ b))
      = decide ((step s e).1.s_waiting_key_up_id ≠ b) ∧
    (∀ x ∈ irq_signals (step s e).2, is_button x.1) := by
  have hbn : b ≠ PBL_BUTTON_ID_NONE := by
    unfold is_button at hb; unfold PBL_BUTTON_ID_NONE; omega
  obtain ⟨hv1, hc⟩ := step_signals s e hv
  unfold line_history
  rcases hc with ⟨h1, h2⟩ | ⟨h1, h2, h3⟩ | ⟨h1, h2, h3, h4⟩ | ⟨h1, h2, h3⟩
  · rw [h2, h1]; simp [alternating]
  · rw [h3]
    have hb1 := hv1.resolve_left h2
    by_cases hcb : (step s e).1.s_waiting_key_up_id = b
    · simp [hcb, h1, alternating, hbn.symm, hb]
    · simp [hcb, h1, alternating, hbn.symm, hb1]
  · rw [h4]
    have hb0 := hv.resolve_left h1
    have hb1 := hv1.resolve_left h2
    by_cases hcb : (step s e).1.s_waiting_key_up_id = b
    · have : s.s_waiting_key_up_id ≠ b := fun h => h3 (h.trans hcb.symm)
      simp [hcb, this, alternating, hb0, hb]
    · by_cases hsb : s.s_waiting_key_up_id = b
      · simp [hcb, hsb, alternating, hb, hb1]
      · simp [hcb, hsb, alternating, hb0, hb1]
  · rw [h3, h2]
    have hb0 := hv.resolve_left h1
    by_cases hsb : s.s_waiting_key_up_id = b
    · simp [hsb, alternating, hbn.symm, hb]
    · simp [hsb, alternating, hbn.symm, hb0]

theorem run_lines (evs : List Event) : ∀ (s : TrackerState) (b : Int), is_button b →
    (s.s_waiting_key_up_id = PBL_BUTTON_ID_NONE ∨ is_button s.s_waiting_key_up_id) →
    alternating (decide (s.s_waiting_key_up_id ≠ b)) (line_history (run s evs).2 b) ∧
    ((line_history (run s evs).2 b).getLast?).getD (decide (s.s_waiting_key_up_id ≠ b))
      = decide ((run s evs).1.s_waiting_key_up_id ≠ b) ∧
    (∀ x ∈ irq_signals (run s evs).2, is_button x.1) := by
  induction evs with
  | nil =>
    intro s b _ _
    simp [run_nil, line_history, irq_signals, alternating]
  | cons e evs ih =>
    intro s b hb hv
    obtain ⟨s1, s2, s3⟩ := step_lines s e b hb hv
    obtain ⟨r1, r2, r3⟩ := ih (step s e).1 b hb (step_signals s e hv).1
    rw [run_cons]
    refine ⟨?_, ?_, ?_⟩
    · rw [line_history_append, alternating_append, s2]
      exact ⟨s1, r1⟩
    · rw [line_history_append, getLast_append_getD, s2]
      exact r2
    · intro x hx
      rw [irq_signals_append, List.mem_append] at hx
      rcases hx with hx | hx
      · exact s3 x hx
      · exact r3 x hx

theorem run_exclusive (evs : List Event) : ∀ (s : TrackerState),
    (s.s_waiting_key_up_id = PBL_BUTTON_ID_NONE ∨ is_button s.s_waiting_key_up_id) →
    exclusive s.s_waiting_key_up_id (irq_signals (run s evs).2) := by
  induction evs with
  | nil => intro s _; simp [run_nil, irq_signals, exclusive]
  | cons e evs ih =>
    intro s hv
    obtain ⟨hv1, hc⟩ := step_signals s e hv
    have hr := ih (step s e).1 hv1
    rw [run_cons, irq_signals_append]
    rcases hc with ⟨h1, h2⟩ | ⟨h1, h2, h3⟩ | ⟨h1, h2, h3, h4⟩ | ⟨h1, h2, h3⟩
    · rw [h2, ← h1]; exact hr
    · rw [h3]
      exact ⟨h1, hv1.resolve_left h2, hr⟩
    · rw [h4]
      exact ⟨rfl, h1, rfl, hv1.resolve_left h2, hr⟩
    · rw [h3]
      rw [h2] at hr
      exact ⟨rfl, h1, hr⟩

/-- C10. Line/state agreement: starting with no outstanding button and all
lines deasserted, after any sequence of key events (any integer keycodes) and
release-timer firings, the line of a real button `b` is at the asserted (low)
level exactly when `b` is the outstanding button; at most one line is
asserted, also between the signals of one call; the levels driven on each line
alternate, starting with an assert; every index used into the 4-entry button
array lies in 0..3. -/
theorem line_state_agreement (s : TrackerState) (evs : List Event)
    (hidle : s.s_waiting_key_up_id = PBL_BUTTON_ID_NONE) :
    (∀ b, is_button b →
      (line_level (run s evs).2 b = false ↔ (run s evs).1.s_waiting_key_up_id = b)) ∧
    (∀ b c, is_button b → is_button c →
      line_level (run s evs).2 b = false → line_level (run s evs).2 c = false → b = c) ∧
    (∀ b, is_button b → alternating true (line_history (run s evs).2 b)) ∧
    exclusive PBL_BUTTON_ID_NONE (irq_signals (run s evs).2) ∧
    (∀ x ∈ irq_signals (run s evs).2, 0 ≤ x.1 ∧ x.1 ≤ 3) := by
  have hlev : ∀ b, is_button b →
      (line_level (run s evs).2 b = false ↔ (run s evs).1.s_waiting_key_up_id = b) := by
    intro b hb
    have hbn : ¬ PBL_BUTTON_ID_NONE = b := by
      unfold is_button at hb; unfold PBL_BUTTON_ID_NONE; omega
    have h2 := (run_lines evs s b hb (Or.inl hidle)).2.1
    rw [hidle] at h2
    simp only [ne_eq, hbn, not_false_eq_true, decide_True] at h2
    unfold line_level
    rw [h2]
    simp
  refine ⟨hlev, ?_, ?_, ?_, ?_⟩
  · intro b c hb hc h1 h2
    rw [← (hlev b hb).1 h1, ← (hlev c hc).1 h2]
  · intro b hb
    have hbn : ¬ PBL_BUTTON_ID_NONE = b := by
      unfold is_button at hb; unfold PBL_BUTTON_ID_NONE; omega
    have h1 := (run_lines evs s b hb (Or.inl hidle)).1
    rw [hidle] at h1
    simpa only [ne_eq, hbn, not_false_eq_true, decide_True] using h1
  · have := run_exclusive evs s (Or.inl hidle)
    rwa [hidle] at this
  · exact (run_lines evs s 0 ⟨by decide, by decide⟩ (Or.inl hidle)).2.2

/-- A concrete instance of C10, on the line of BACK: UP pressed, SELECT
pressed, the timeout, a release code, then BACK pressed, from the initial
state. -/
theorem line_state_agreement_witness :
    (line_level (run initial_state [Event.key 0 17, Event.key 100 31,
        Event.release_timeout, Event.key 400 145, Event.key 500 16]).2 0 = false ↔
      (run initial_state [Event.key 0 17, Event.key 100 31,
        Event.release_timeout, Event.key 400 145, Event.key 500 16]).1.s_waiting_key_up_id
        = 0) :=
  (line_state_agreement initial_state [Event.key 0 17, Event.key 100 31,
    Event.release_timeout, Event.key 400 145, Event.key 500 16] rfl).1 0
    ⟨by decide, by decide⟩

/-! ## Virtual time: repeated presses -/

theorem play_nil (s : TrackerState) : play s [] = (s, []) := rfl

theorem play_cons (s : TrackerState) (k : Int × Int) (ks : List (Int × Int)) :
    play s (k :: ks)
      = ((play (deliver s k.1 k.2).1 ks).1,
         (deliver s k.1 k.2).2 ++ (play (deliver s k.1 k.2).1 ks).2) := by
  unfold play
  simp only [List.foldl_cons, List.nil_append]
  exact foldl_effects (fun s k => deliver s k.1 k.2) ks (deliver s k.1 k.2).1
    (deliver s k.1 k.2).2

theorem advance_not_due (s : TrackerState) (t d : Int)
    (hm : s.s_button_timer = some { expire_time := some d }) (h : t < d) :
    advance s t = (s, []) := by
  have : ¬ d ≤ t := by omega
  simp [advance, hm, this]

theorem advance_due (s : TrackerState) (t d : Int)
    (hm : s.s_button_timer = some { expire_time := some d }) (h : d ≤ t) :
    advance s t = ((timer_fire s).1, (timer_fire s).2.map (fun e => (d, e))) := by
  simp [advance, hm, h]

theorem advance_idle (s : TrackerState) (t : Int)
    (hidle : s.s_waiting_key_up_id = PBL_BUTTON_ID_NONE) :
    (advance s t).2 = [] ∧
    (advance s t).1.s_waiting_key_up_id = PBL_BUTTON_ID_NONE ∧
    (advance s t).1.prev_keycode = s.prev_keycode ∧
    ((advance s t).1.s_button_timer = none ↔ s.s_button_timer = none) := by
  unfold advance
  split
  · rename_i d hm
    split_ifs with hd
    · rw [timer_fire_eq]
      simp [hidle, hm]
    · simp [hidle]
  · simp [hidle]

theorem deliver_idle (s : TrackerState) (t k b : Int)
    (hidle : s.s_waiting_key_up_id = PBL_BUTTON_ID_NONE) (hb : is_button b)
    (hmap : translate k s.prev_keycode = (b, true)) :
    (deliver s t k).1
      = { s_waiting_key_up_id := b,
          s_button_timer := some { expire_time := some (t + 250) },
          prev_keycode := k } ∧
    (deliver s t k).2
      = (t, Effect.set_irq b false) ::
          ((if s.s_button_timer = none then [(t, Effect.timer_new)] else [])
            ++ [(t, Effect.timer_mod (t + 250))]) := by
  obtain ⟨a1, a2, a3, a4⟩ := advance_idle s t hidle
  have hmap1 : translate k (advance s t).1.prev_keycode = (b, true) := by rw [a3]; exact hmap
  have hbn : b ≠ PBL_BUTTON_ID_NONE := by
    unfold is_button at hb; unfold PBL_BUTTON_ID_NONE; omega
  have hacc : (translate k (advance s t).1.prev_keycode).1 ≠ PBL_BUTTON_ID_NONE ∧
      (translate k (advance s t).1.prev_keycode).2 = true := by
    rw [hmap1]; exact ⟨hbn, rfl⟩
  obtain ⟨c1, c2, c3, c4⟩ := press_idle_effects (advance s t).1 t k b a2 hb hmap1
  unfold deliver
  rw [a1, c4]
  refine ⟨?_, ?_⟩
  · rw [(handler_press _ t k hacc.1 hacc.2).1, hmap1]
  · by_cases hn : s.s_button_timer = none
    · simp [hn, a4.2 hn]
    · have : ¬ (advance s t).1.s_button_timer = none := fun h => hn (a4.1 h)
      simp [hn, this]

theorem deliver_hold (s : TrackerState) (t k b d : Int)
    (hhold : s.s_waiting_key_up_id = b) (hb : is_button b)
    (hm : s.s_button_timer = some { expire_time := some d }) (htd : t < d)
    (hmap : translate k s.prev_keycode = (b, true)) :
    deliver s t k
      = ({ s_waiting_key_up_id := b,
           s_button_timer := some { expire_time := some (t + 250) },
           prev_keycode := k }, [(t, Effect.timer_mod (t + 250))]) := by
  have hbn : b ≠ PBL_BUTTON_ID_NONE := by
    unfold is_button at hb; unfold PBL_BUTTON_ID_NONE; omega
  have hbn2 : ¬ PBL_BUTTON_ID_NONE = b := fun h => hbn h.symm
  unfold deliver
  rw [advance_not_due s t d hm htd]
  simp [pebble_key_handler, prv_send_key_up, hmap, hhold, hm, hbn, hbn2, timer_mod]

theorem play_hold (b : Int) (hb : is_button b) (ks : List (Int × Int)) :
    ∀ (s : TrackerState) (t0 : Int),
    s.s_waiting_key_up_id = b →
    s.s_button_timer = some { expire_time := some (t0 + 250) } →
    press_codes_for b s.prev_keycode ks →
    close_presses t0 ks →
    (play s ks).1.s_waiting_key_up_id = b ∧
    (play s ks).1.s_button_timer = some { expire_time := some (last_time t0 ks + 250) } ∧
    (play s ks).2 = ks.map (fun k => (k.1, Effect.timer_mod (k.1 + 250))) := by
  induction ks with
  | nil =>
    intro s t0 h1 h2 _ _
    exact ⟨h1, h2, rfl⟩
  | cons k ks ih =>
    intro s t0 h1 h2 h3 h4
    obtain ⟨hk, hrest⟩ := h3
    obtain ⟨c1, c2, c3⟩ := h4
    have hd := deliver_hold s k.1 k.2 b (t0 + 250) h1 hb h2 c2 hk
    rw [play_cons, hd]
    obtain ⟨r1, r2, r3⟩ := ih
      { s_waiting_key_up_id := b,
        s_button_timer := some { expire_time := some (k.1 + 250) },
        prev_keycode := k.2 } k.1 rfl rfl hrest c3
    exact ⟨r1, r2, by rw [r3]; rfl⟩

theorem timed_signals_append (xs ys : List (Int × Effect)) :
    timed_signals (xs ++ ys) = timed_signals xs ++ timed_signals ys := by
  induction xs with
  | nil => rfl
  | cons x xs ih =>
    obtain ⟨t, e⟩ := x
    cases e <;> simp [timed_signals, ih]

theorem timed_signals_timer_mod (ks : List (Int × Int)) :
    timed_signals (ks.map (fun k => (k.1, Effect.timer_mod (k.1 + 250)))) = [] := by
  induction ks with
  | nil => rfl
  | cons k ks ih => simpa [timed_signals] using ih

/-- C3. Repeated press of the same button: from an Idle state, press codes
for the real button `b` arrive at times `t1 < ... < tn`, each less than 250 ms
after the one before, and the clock then runs on to `T`. The first press
asserts line `b` (creating the timer if there is none), every press only calls
`timer_mod` with its own time plus 250, and the one deassert of line `b`
happens at `tn + 250`, once `T` has reached it: the line signals are exactly
the assert at `t1` followed by the deassert at `tn + 250`. After the last press
`b` is outstanding with the one timer pending for `tn + 250`. -/
theorem repeated_press (s : TrackerState) (b t1 k1 : Int) (ks : List (Int × Int)) (T : Int)
    (hidle : s.s_waiting_key_up_id = PBL_BUTTON_ID_NONE)
    (hb : is_button b)
    (hcodes : press_codes_for b s.prev_keycode ((t1, k1) :: ks))
    (hclose : close_presses t1 ks) :
    (play_until s ((t1, k1) :: ks) T).2
      = (t1, Effect.set_irq b false) ::
          ((if s.s_button_timer = none then [(t1, Effect.timer_new)] else [])
            ++ ((t1, k1) :: ks).map (fun k => (k.1, Effect.timer_mod (k.1 + 250)))
            ++ (if last_time t1 ks + 250 ≤ T
                  then [(last_time t1 ks + 250, Effect.set_irq b true)] else [])) ∧
    timed_signals (play_until s ((t1, k1) :: ks) T).2
      = (t1, b, false) ::
          (if last_time t1 ks + 250 ≤ T then [(last_time t1 ks + 250, b, true)] else []) ∧
    (play s ((t1, k1) :: ks)).1.s_waiting_key_up_id = b ∧
    (play s ((t1, k1) :: ks)).1.s_button_timer
      = some { expire_time := some (last_time t1 ks + 250) } := by
  have hbn : b ≠ PBL_BUTTON_ID_NONE := by
    unfold is_button at hb; unfold PBL_BUTTON_ID_NONE; omega
  obtain ⟨hk1, hrest⟩ := hcodes
  obtain ⟨d1, d2⟩ := deliver_idle s t1 k1 b hidle hb hk1
  have hrest1 : press_codes_for b (deliver s t1 k1).1.prev_keycode ks := by
    rw [d1]; exact hrest
  obtain ⟨p1, p2, p3⟩ := play_hold b hb ks (deliver s t1 k1).1 t1
    (by rw [d1]) (by rw [d1]) hrest1 hclose
  have hplay1 : (play s ((t1, k1) :: ks)).1 = (play (deliver s t1 k1).1 ks).1 := by
    rw [play_cons]
  have hplay2 : (play s ((t1, k1) :: ks)).2
      = (t1, Effect.set_irq b false) ::
          ((if s.s_button_timer = none then [(t1, Effect.timer_new)] else [])
            ++ ((t1, k1) :: ks).map (fun k => (k.1, Effect.timer_mod (k.1 + 250)))) := by
    rw [play_cons, d2, p3]
    simp
  have hadv : (advance (play s ((t1, k1) :: ks)).1 T).2
      = if last_time t1 ks + 250 ≤ T
          then [(last_time t1 ks + 250, Effect.set_irq b true)] else [] := by
    rw [hplay1]
    by_cases hT : last_time t1 ks + 250 ≤ T
    · rw [advance_due _ T _ p2 hT, timer_fire_eq, p1]
      simp [hT, hbn]
    · rw [advance_not_due _ T _ p2 (by omega)]
      simp [hT]
  have heff : (play_until s ((t1, k1) :: ks) T).2
      = (t1, Effect.set_irq b false) ::
          ((if s.s_button_timer = none then [(t1, Effect.timer_new)] else [])
            ++ ((t1, k1) :: ks).map (fun k => (k.1, Effect.timer_mod (k.1 + 250)))
            ++ (if last_time t1 ks + 250 ≤ T
                  then [(last_time t1 ks + 250, Effect.set_irq b true)] else [])) := by
    unfold play_until
    rw [hadv, hplay2]
    simp
  refine ⟨heff, ?_, ?_, ?_⟩
  · rw [heff]
    have hmods := timed_signals_timer_mod ((t1, k1) :: ks)
    rw [timed_signals, timed_signals_append, timed_signals_append, hmods]
    by_cases hn : s.s_button_timer = none <;>
      by_cases hT : last_time t1 ks + 250 ≤ T <;>
      simp [hn, hT, timed_signals]
  · rw [hplay1]; exact p1
  · rw [hplay1]; exact p2

/-- A concrete instance of C3: the press code of BACK (`Q`, 16) every 100 ms
for one second from the initial state, observed up to time 2000: one assert at
time 0, one deassert at 1250, which is 250 ms after the last press. -/
theorem repeated_press_witness :
    timed_signals (play_until initial_state
      [(0, 16), (100, 16), (200, 16), (300, 16), (400, 16), (500, 16), (600, 16), (700, 16),
       (800, 16), (900, 16), (1000, 16)] 2000).2
      = [(0, 0, false), (1250, 0, true)] :=
  (repeated_press initial_state 0 0 16
    [(100, 16), (200, 16), (300, 16), (400, 16), (500, 16), (600, 16), (700, 16),
     (800, 16), (900, 16), (1000, 16)] 2000 rfl ⟨by decide, by decide⟩
    (by simp only [press_codes_for]; decide)
    (by simp only [close_presses]; decide)).2.1

end Pebble
